import Mathlib

/-!
Shallow embedding of the media-triage core (`triage.py` of BlackSheep-78/media-triage).

Pure string manipulation is modelled on `List Char`; Python's `os.path`
helpers (`ntpath.normpath`, `ntpath.splitdrive`, `ntpath.splitext`,
`ntpath.join` restricted to plain entry names) are translated from the
CPython reference implementation, since the script runs on Windows.
File-system state is explicit (`Volume`, `FsEntry`, `PState`).
-/

/-! ### Basic character and string helpers -/

/-- Whitespace characters removed by Python's `str.strip()` (ASCII subset). -/
def isPyWs (c : Char) : Bool :=
  c = ' ' || c = '\t' || c = '\n' || c = '\r' || c = '\x0b' || c = '\x0c'

/-- Python `str.strip()` on a character list. -/
def stripL (l : List Char) : List Char :=
  ((l.dropWhile isPyWs).reverse.dropWhile isPyWs).reverse

/-- Python `str.strip()`. -/
def pyStrip (s : String) : String := ⟨stripL s.data⟩

/-- Python `str.startswith` on character lists. -/
def startsWithL : List Char → List Char → Bool
  | [], _ => true
  | _, [] => false
  | a :: pr, b :: lr => a = b && startsWithL pr lr

/-- Python `str.lower()` restricted to ASCII case mapping. -/
def pyLowerS (s : String) : String := ⟨s.data.map Char.toLower⟩

/-- Auxiliary for splitting: first field and remaining fields. -/
def splitOnCAux (sep : Char) : List Char → List Char × List (List Char)
  | [] => ([], [])
  | c :: rest =>
    let r := splitOnCAux sep rest
    if c = sep then ([], r.1 :: r.2) else (c :: r.1, r.2)

/-- Python `str.split(sep)` for a single-character separator:
`splitOnC sep l` always returns at least one field. -/
def splitOnC (sep : Char) (l : List Char) : List (List Char) :=
  (splitOnCAux sep l).1 :: (splitOnCAux sep l).2

/-- Python `x in xs` for string lists. -/
def listHas (x : String) : List String → Bool
  | [] => false
  | y :: rest => if y = x then true else listHas x rest

/-! ### Windows path model (`ntpath`) -/

/-- Index of the first backslash, if any. -/
def idxOfSep (l : List Char) : Option Nat := l.findIdx? (· = '\\')

/-- `ntpath.splitdrive` on an input whose forward slashes were already
replaced by backslashes (which is how `normpath` calls it). -/
def splitdriveN (p : List Char) : List Char × List Char :=
  match p with
  | '\\' :: '\\' :: rest =>
    match rest with
    | '\\' :: _ => ([], p)
    | _ =>
      match idxOfSep rest with
      | none => ([], p)
      | some j =>
        let index := 2 + j
        match idxOfSep (p.drop (index + 1)) with
        | some 0 => ([], p)
        | some j2 => (p.take (index + 1 + j2), p.drop (index + 1 + j2))
        | none => (p, [])
  | a :: b :: rest => if b = ':' then ([a, b], rest) else ([], p)
  | _ => ([], p)

/-- Does the (drive) prefix end with a separator? -/
def endsWithSepB (l : List Char) : Bool :=
  match l.getLast? with
  | some '\\' => true
  | _ => false

/-- The component-collapsing loop of `ntpath.normpath`, rendered as a
stack: empty and `.` components are dropped, `..` pops a previous
non-`..` component (or is dropped at an absolute root). -/
def normCompsGo (rootSep : Bool) : List (List Char) → List (List Char) → List (List Char)
  | acc, [] => acc.reverse
  | acc, comp :: rest =>
    if comp = ([] : List Char) || comp = ['.'] then normCompsGo rootSep acc rest
    else if comp = ['.', '.'] then
      match acc with
      | top :: acc' =>
        if top = ['.', '.'] then normCompsGo rootSep (comp :: top :: acc') rest
        else normCompsGo rootSep acc' rest
      | [] =>
        if rootSep then normCompsGo rootSep [] rest
        else normCompsGo rootSep [comp] rest
    else normCompsGo rootSep (comp :: acc) rest

/-- `ntpath.normpath` on a character list (CPython 3.11 algorithm). -/
def pynormpathL (path : List Char) : List Char :=
  if startsWithL ['\\', '\\', '.', '\\'] path || startsWithL ['\\', '\\', '?', '\\'] path then
    path
  else
    let p1 := path.map (fun c => if c = '/' then '\\' else c)
    let dr := splitdriveN p1
    let pre := if startsWithL ['\\'] dr.2 then dr.1 ++ ['\\'] else dr.1
    let rest := if startsWithL ['\\'] dr.2 then dr.2.dropWhile (· = '\\') else dr.2
    let comps := normCompsGo (endsWithSepB pre) [] (splitOnC '\\' rest)
    let comps := if pre = ([] : List Char) && comps.isEmpty then [['.']] else comps
    pre ++ List.intercalate ['\\'] comps

/-- `os.path.normpath` as used by the import walker. -/
def pynormpath (s : String) : String := ⟨pynormpathL s.data⟩

/-- `os.path.join(root, name)` for a plain directory-entry name, the way
`os.walk` extends paths (faithful to `ntpath.join` whenever `name` is
non-empty and contains no separator and no colon). -/
def ntjoinName (a : String) (name : String) : String :=
  if a = "" then name
  else if endsWithSepB a.data || a.data.getLast? = some '/' || a.data.getLast? = some ':' then
    a ++ name
  else a ++ "\\" ++ name

/-- Index of the last occurrence of `c`, as Python `str.rfind` (`-1` if absent). -/
def rfindC (c : Char) (l : List Char) : Int :=
  match (l.reverse.findIdx? (· = c)) with
  | some j => ((l.length - 1 - j : Nat) : Int)
  | none => -1

/-- `ntpath.splitext` on a character list (CPython `genericpath._splitext`
with `sep='\\'`, `altsep='/'`, `extsep='.'`). -/
def pysplitextL (p : List Char) : List Char × List Char :=
  let sepIdx := max (rfindC '\\' p) (rfindC '/' p)
  let dotIdx := rfindC '.' p
  if sepIdx < dotIdx then
    let fstart := (sepIdx + 1).toNat
    let dotN := dotIdx.toNat
    if ((p.drop fstart).take (dotN - fstart)).any (· ≠ '.') then
      (p.take dotN, p.drop dotN)
    else (p, [])
  else (p, [])

/-- `os.path.splitext`. -/
def pysplitextS (s : String) : String × String :=
  ((⟨(pysplitextL s.data).1⟩ : String), (⟨(pysplitextL s.data).2⟩ : String))

/-- `os.path.splitext(name)[1].lower()`, the classifier both checks apply. -/
def fileExtLower (name : String) : String := pyLowerS (pysplitextS name).2

/-! ### JSON values and drive descriptors -/

/-- JSON values as `json.load` produces them (numbers collapsed to `Int`,
which suffices for the descriptor fields the program inspects). -/
inductive JValue where
  | null : JValue
  | bool : Bool → JValue
  | str : String → JValue
  | num : Int → JValue
  | arr : List JValue → JValue
  | obj : List (String × JValue) → JValue

/-- Dictionary lookup (`data.get(k)` / `data[k]`); descriptors are
insertion-ordered key/value lists, as Python dicts are. -/
def jget (k : String) : List (String × JValue) → Option JValue
  | [] => none
  | (k', v) :: rest => if k' = k then some v else jget k rest

/-- `k in data`. -/
def hasKey (k : String) (d : List (String × JValue)) : Bool := (jget k d).isSome

/-- `data[k]` where the key is known to exist (defaulted for totality). -/
def jgetD (k : String) (d : List (String × JValue)) : JValue := (jget k d).getD JValue.null

/-- Python `value is True`: identity with the boolean `True` singleton. -/
def isJTrue : Option JValue → Bool
  | some (JValue.bool true) => true
  | _ => false

/-- Python truthiness of a JSON value (`if purge:`). -/
def pyTruthy : JValue → Bool
  | JValue.null => false
  | JValue.bool b => b
  | JValue.str s => !s.data.isEmpty
  | JValue.num n => n != 0
  | JValue.arr l => !l.isEmpty
  | JValue.obj l => !l.isEmpty

/-- `json_data.get("purge", False)` fed to `if purge:`. -/
def getPurge (d : List (String × JValue)) : Bool :=
  match jget "purge" d with
  | some v => pyTruthy v
  | none => false

/-! ### Drive registry (`detect_external_drives`) -/

/-- A removable volume as discovery sees it: `driveJson = none` means no
`drive.json` at the root, `some none` a file that fails to parse,
`some (some d)` a parsed descriptor.  `freshId`/`freshName` are the values
`uuid4()`/`generate_human_name()` would produce for this volume, and
`writeOk` says whether writing the descriptor back would succeed. -/
structure Volume where
  path : String
  driveJson : Option (Option (List (String × JValue)))
  writeOk : Bool
  freshId : String
  freshName : String

/-- An element of the `valid_drives` result list. -/
structure DriveInfo where
  path : String
  id : JValue
  name : JValue
  json : List (String × JValue)

/-- The id/name provisioning step of `detect_external_drives`
(lines 121-129): add `id` then `name` when missing, tracking `updated`. -/
def baptize (freshId freshName : String) (data : List (String × JValue)) :
    List (String × JValue) × Bool :=
  let step1 :=
    if hasKey "id" data then (data, false)
    else (data ++ [("id", JValue.str freshId)], true)
  if hasKey "name" step1.1 then step1
  else (step1.1 ++ [("name", JValue.str freshName)], true)

/-- Per-volume body of the `detect_external_drives` loop.  Returns the
drive-list contribution and the descriptor content written back to the
volume (`none` when no write happens: absent/unreadable descriptor,
ineligible source, nothing to update, or a failed write). -/
def processDrive (v : Volume) : Option DriveInfo × Option (List (String × JValue)) :=
  match v.driveJson with
  | none => (none, none)
  | some none => (none, none)
  | some (some data) =>
    if isJTrue (jget "source" data) then
      let b := baptize v.freshId v.freshName data
      if b.2 then
        if v.writeOk then
          (some ⟨v.path, jgetD "id" b.1, jgetD "name" b.1, b.1⟩, some b.1)
        else (none, none)
      else (some ⟨v.path, jgetD "id" b.1, jgetD "name" b.1, b.1⟩, none)
    else (none, none)

/-- `detect_external_drives`: the `valid_drives` list accumulated over the
removable volumes. -/
def detect_external_drives (vols : List Volume) : List DriveInfo :=
  vols.filterMap (fun v => (processDrive v).1)

/-- The volume as a second discovery run would find it: if the first run
wrote the descriptor back, that content is now on disk. -/
def volAfter (v : Volume) : Volume :=
  match (processDrive v).2 with
  | some w => ⟨v.path, some (some w), v.writeOk, v.freshId, v.freshName⟩
  | none => v

/-! ### File-system entries and the import walk -/

/-- A directory entry as `os.scandir` reports it. -/
inductive FsEntry where
  | file : String → FsEntry
  | dir : String → List FsEntry → FsEntry

/-- `entry.is_file()` names of a listing, in listing order. -/
def fileNames (entries : List FsEntry) : List String :=
  entries.filterMap (fun e => match e with | FsEntry.file n => some n | FsEntry.dir _ _ => none)

/-- The two `media_exts` literals of `triage.py`: line 161
(`try_remove_folder`) and line 184 (`import_from_external_drives`). -/
def media_exts_try_remove : List String :=
  [".jpg", ".jpeg", ".png", ".gif", ".bmp", ".heic", ".mp4", ".mov", ".avi", ".mkv"]

def media_exts_import : List String :=
  [".jpg", ".jpeg", ".png", ".gif", ".bmp", ".heic", ".mp4", ".mov", ".avi", ".mkv"]

/-- `ext in media_exts` as evaluated inside `try_remove_folder`. -/
def isMediaTry (name : String) : Bool := listHas (fileExtLower name) media_exts_try_remove

/-- `ext in media_exts` as evaluated inside `import_from_external_drives`. -/
def isMediaImport (name : String) : Bool := listHas (fileExtLower name) media_exts_import

/-- `has_media` flag of `try_remove_folder` over a listing. -/
def dirHasMedia (entries : List FsEntry) : Bool :=
  entries.any (fun e => match e with | FsEntry.file n => isMediaTry n | FsEntry.dir _ _ => false)

/-- `has_subfolders` flag of `try_remove_folder` over a listing. -/
def dirHasSubfolders (entries : List FsEntry) : Bool :=
  entries.any (fun e => match e with | FsEntry.dir _ _ => true | FsEntry.file _ => false)

/-- The purge-eligibility test `not has_media and not has_subfolders`
(line 177), over the immediate children of a directory. -/
def is_purge_eligible (entries : List FsEntry) : Bool :=
  !dirHasMedia entries && !dirHasSubfolders entries

/-- `try_remove_folder`: append the folder to the marked list iff its
listing is purge-eligible. -/
def try_remove_folder (folder : String) (entries : List FsEntry) (marked : List String) :
    List String :=
  if is_purge_eligible entries then marked ++ [folder] else marked

mutual

/-- Walk rooted below the top: contribution of a single entry to
`os.walk` (top-down), paths extended with `os.path.join`. -/
def walkE (root : String) : FsEntry → List (String × List FsEntry)
  | FsEntry.file _ => []
  | FsEntry.dir n cs => (ntjoinName root n, cs) :: walkL (ntjoinName root n) cs

/-- Walk contributions of a listing, in listing order. -/
def walkL (root : String) : List FsEntry → List (String × List FsEntry)
  | [] => []
  | e :: rest => walkE root e ++ walkL root rest

end

/-- `os.walk(root)` top-down: the root's own listing first, then each
subtree depth-first in listing order. -/
def walkTop (root : String) (entries : List FsEntry) : List (String × List FsEntry) :=
  (root, entries) :: walkL root entries

/-- Accumulated effects of the import walk: dry-run backup invocations and
the process-wide `folders_marked_for_deletion` list. -/
structure ImportAcc where
  backups : List String
  marked : List String

/-- Body of the `for root, dirs, files in os.walk(root_path)` loop
(lines 196-215): back up media files, then, when `purge` is set and the
normalized root differs from the normalized mount root, run
`try_remove_folder` on the directory. -/
def importStep (purge : Bool) (root_path : String) (acc : ImportAcc)
    (node : String × List FsEntry) : ImportAcc :=
  let backups := acc.backups ++
    ((fileNames node.2).filter isMediaImport).map (fun f => ntjoinName node.1 f)
  let marked :=
    if purge then
      if pynormpath node.1 ≠ pynormpath root_path then
        try_remove_folder node.1 node.2 acc.marked
      else acc.marked
    else acc.marked
  ⟨backups, marked⟩

/-- `import_from_external_drives` restricted to one drive whose tree is
`tree` (listing of the mount root). -/
def importOneDrive (purge : Bool) (root_path : String) (tree : List FsEntry) : ImportAcc :=
  (walkTop root_path tree).foldl (importStep purge root_path) ⟨[], []⟩

/-- Per-drive import as `main` invokes it: the `purge` flag comes from the
drive's descriptor. -/
def importDrive (d : DriveInfo) (tree : List FsEntry) : ImportAcc :=
  importOneDrive (getPurge d.json) d.path tree

/-! ### Deletion pipeline -/

/-- On-disk state the deletion pipeline touches: the deletion-log file
(content, or `none` when absent) at `logPath`, and the set of existing
directories. -/
structure PState where
  logPath : String
  logFile : Option String
  dirs : List String

/-- Is path `d` the folder `f` or inside the tree rooted at `f`?
(`shutil.rmtree f` removes exactly these.) -/
def pathUnder (d f : String) : Bool :=
  if d = f then true
  else startsWithL (f.data ++ ['\\']) d.data || startsWithL (f.data ++ ['/']) d.data

/-- `shutil.rmtree folder`: removes the folder's subtree; the log file
disappears only if it lives inside the removed tree. -/
def rmtreeSt (folder : String) (s : PState) : PState :=
  ⟨s.logPath,
   if pathUnder s.logPath folder then none else s.logFile,
   s.dirs.filter (fun d => !pathUnder d folder)⟩

/-- Content written by `write_folders_to_delete_log`: one candidate per
line, each terminated by a newline, in candidate order. -/
def renderLogL : List (List Char) → List Char
  | [] => []
  | c :: rest => c ++ '\n' :: renderLogL rest

def renderLog (cands : List String) : String := ⟨renderLogL (cands.map String.data)⟩

/-- Phase 2's reading of the log: split into lines, strip each, keep the
non-blank ones (`[line.strip() for line in f if line.strip()]`). -/
def parseLog (content : String) : List String :=
  ((splitOnC '\n' content.data).map (fun l => (⟨stripL l⟩ : String))).filter
    (fun l => decide (l ≠ ""))

/-- `write_folders_to_delete_log` (lines 304-309): overwrite the log file
with the candidate list. -/
def write_folders_to_delete_log (cands : List String) (s : PState) : PState :=
  ⟨s.logPath, some (renderLog cands), s.dirs⟩

/-- Operator-visible output of the deletion loop. -/
inductive OutMsg where
  | deletingCount : Nat → OutMsg
  | progressBar : Nat → Nat → String → OutMsg
  | completed : OutMsg

/-- Result of running (part of) the deletion step. -/
structure DelRun where
  state : PState
  attempted : List String
  errors : List String
  output : List OutMsg

/-- The `for i, folder in enumerate(folders, 1)` loop (lines 265-286):
attempt `rmtree` on every folder; a failure (oracle `fails`) is recorded
in the debug log and the loop continues; a progress line is drawn each
iteration. -/
def deleteFoldersGo (fails : String → Bool) (total : Nat) :
    Nat → List String → PState → DelRun
  | _, [], s => ⟨s, [], [], []⟩
  | i, f :: rest, s =>
    let s' := if fails f then s else rmtreeSt f s
    let r := deleteFoldersGo fails total (i + 1) rest s'
    ⟨r.state, f :: r.attempted,
     (if fails f then [f] else []) ++ r.errors,
     OutMsg.progressBar i total f :: r.output⟩

/-- `confirm_and_delete_folders` (lines 249-292): return silently when the
log file is absent or holds no non-blank line; otherwise announce the
count, delete each listed folder, and confirm completion. -/
def confirm_and_delete_folders (fails : String → Bool) (s : PState) : DelRun :=
  match s.logFile with
  | none => ⟨s, [], [], []⟩
  | some content =>
    let folders := parseLog content
    if folders.isEmpty then ⟨s, [], [], []⟩
    else
      let r := deleteFoldersGo fails folders.length 1 folders s
      ⟨r.state, r.attempted, r.errors,
       OutMsg.deletingCount folders.length :: r.output ++ [OutMsg.completed]⟩

/-- `finalize_purge_log_and_delete` (lines 298-302): nothing to do when no
folder is marked; otherwise write the log, then run the deletion step. -/
def finalize_purge_log_and_delete (fails : String → Bool) (cands : List String)
    (s : PState) : DelRun :=
  if cands.isEmpty then ⟨s, [], [], []⟩
  else confirm_and_delete_folders fails (write_folders_to_delete_log cands s)

/-- State reached if the process dies after Phase 2 performed exactly the
first `k` deletions of its work list (`k = 0`: crash right after the
checkpoint write). -/
def finalizeCrash (fails : String → Bool) (cands : List String) (s : PState)
    (k : Nat) : PState :=
  if cands.isEmpty then s
  else
    let s1 := write_folders_to_delete_log cands s
    let folders := match s1.logFile with | none => [] | some c => parseLog c
    (deleteFoldersGo fails folders.length 1 (folders.take k) s1).state

/-- A candidate path as real Windows directory paths are: no newline,
no surrounding whitespace, non-empty (so the log round-trips exactly). -/
def CleanPath (c : String) : Prop :=
  '\n' ∉ c.data ∧ stripL c.data = c.data ∧ c ≠ ""

instance (c : String) : Decidable (CleanPath c) := by
  unfold CleanPath; infer_instance

/-! ### Helper lemmas -/

theorem jget_append (k : String) (a b : List (String × JValue)) :
    jget k (a ++ b) = match jget k a with
      | some v => some v
      | none => jget k b := by
  induction a with
  | nil => simp [jget]
  | cons kv rest ih =>
    obtain ⟨k', v⟩ := kv
    by_cases h : k' = k
    · simp [jget, h]
    · simp [jget, h, ih]

theorem splitOnCAux_append (sep : Char) (xs ys : List Char) (h : ∀ c ∈ xs, c ≠ sep) :
    splitOnCAux sep (xs ++ ys) =
      (xs ++ (splitOnCAux sep ys).1, (splitOnCAux sep ys).2) := by
  induction xs with
  | nil => simp
  | cons c rest ih =>
    have hc : c ≠ sep := h c (List.mem_cons_self c rest)
    have ih' := ih (fun d hd => h d (List.mem_cons_of_mem _ hd))
    simp [splitOnCAux, hc, ih']

theorem splitOnCAux_cons_sep (sep : Char) (ys : List Char) :
    splitOnCAux sep (sep :: ys) =
      ([], (splitOnCAux sep ys).1 :: (splitOnCAux sep ys).2) := by
  simp [splitOnCAux]

theorem parse_render (cands : List String) (h : ∀ c ∈ cands, CleanPath c) :
    parseLog (renderLog cands) = cands := by
  induction cands with
  | nil => rfl
  | cons c rest ih =>
    obtain ⟨h1, h2, h3⟩ := h c (List.mem_cons_self c rest)
    have hrest : ∀ x ∈ rest, CleanPath x := fun x hx => h x (List.mem_cons_of_mem _ hx)
    have hne : ∀ d ∈ c.data, d ≠ '\n' := fun d hd he => h1 (he ▸ hd)
    have hdata : (renderLog (c :: rest)).data = c.data ++ '\n' :: (renderLog rest).data := rfl
    unfold parseLog splitOnC
    rw [hdata, splitOnCAux_append '\n' c.data ('\n' :: (renderLog rest).data) hne,
        splitOnCAux_cons_sep]
    unfold parseLog splitOnC at ih
    simp only [List.append_nil, List.map_cons, List.filter_cons, h2]
    have hcc : (⟨c.data⟩ : String) = c := rfl
    rw [hcc]
    simp [h3]
    simpa [List.filter_cons] using ih hrest

theorem deleteGo_attempted (fails : String → Bool) (total : Nat) :
    ∀ (fs : List String) (i : Nat) (s : PState),
      (deleteFoldersGo fails total i fs s).attempted = fs := by
  intro fs
  induction fs with
  | nil => intro i s; rfl
  | cons f rest ih => intro i s; simp [deleteFoldersGo, ih]

theorem deleteGo_errors (fails : String → Bool) (total : Nat) :
    ∀ (fs : List String) (i : Nat) (s : PState),
      (deleteFoldersGo fails total i fs s).errors = fs.filter fails := by
  intro fs
  induction fs with
  | nil => intro i s; rfl
  | cons f rest ih =>
    intro i s
    by_cases hf : fails f
    · simp [deleteFoldersGo, hf, List.filter_cons, ih]
    · simp [deleteFoldersGo, hf, List.filter_cons, ih]

theorem deleteGo_state (fails : String → Bool) (total : Nat) :
    ∀ (fs : List String) (i : Nat) (s : PState),
      (∀ f ∈ fs, pathUnder s.logPath f = false) →
      (deleteFoldersGo fails total i fs s).state.logPath = s.logPath ∧
      (deleteFoldersGo fails total i fs s).state.logFile = s.logFile := by
  intro fs
  induction fs with
  | nil => intro i s _; exact ⟨rfl, rfl⟩
  | cons f rest ih =>
    intro i s h
    have hf := h f (List.mem_cons_self f rest)
    by_cases hfail : fails f
    · have := ih (i + 1) s (fun g hg => h g (List.mem_cons_of_mem _ hg))
      simpa [deleteFoldersGo, hfail] using this
    · have hlp : (rmtreeSt f s).logPath = s.logPath := rfl
      have hlf : (rmtreeSt f s).logFile = s.logFile := by
        simp [rmtreeSt, hf]
      have hrest : ∀ g ∈ rest, pathUnder (rmtreeSt f s).logPath g = false := by
        rw [hlp]; exact fun g hg => h g (List.mem_cons_of_mem _ hg)
      have := ih (i + 1) (rmtreeSt f s) hrest
      constructor
      · simp only [deleteFoldersGo, hfail, if_neg, Bool.false_eq_true, ite_false]
        rw [this.1, hlp]
      · simp only [deleteFoldersGo, hfail, if_neg, Bool.false_eq_true, ite_false]
        rw [this.2, hlf]

theorem importStep_marked (purge : Bool) (rp : String) (acc : ImportAcc)
    (nd : String × List FsEntry) :
    ∀ r ∈ (importStep purge rp acc nd).marked,
      r ∈ acc.marked ∨ (pynormpath nd.1 ≠ pynormpath rp ∧ r = nd.1) := by
  intro r hr
  unfold importStep try_remove_folder at hr
  simp only at hr
  split_ifs at hr with hp hne he
  · rcases List.mem_append.mp hr with h1 | h2
    · exact Or.inl h1
    · exact Or.inr ⟨hne, by simpa using h2⟩
  all_goals exact Or.inl hr

theorem foldl_importStep_marked (purge : Bool) (rp : String) :
    ∀ (nodes : List (String × List FsEntry)) (acc : ImportAcc),
      (∀ r ∈ acc.marked, pynormpath r ≠ pynormpath rp) →
      ∀ r ∈ (nodes.foldl (importStep purge rp) acc).marked, pynormpath r ≠ pynormpath rp := by
  intro nodes
  induction nodes with
  | nil => intro acc h; simpa using h
  | cons nd rest ih =>
    intro acc h
    apply ih
    intro r hr
    rcases importStep_marked purge rp acc nd r hr with h1 | h2
    · exact h r h1
    · rw [h2.2]; exact h2.1

theorem importStep_backups (purge : Bool) (rp : String) (acc : ImportAcc)
    (nd : String × List FsEntry) :
    ∀ b ∈ (importStep purge rp acc nd).backups,
      b ∈ acc.backups ∨ ∃ f, isMediaImport f = true ∧ b = ntjoinName nd.1 f := by
  intro b hb
  unfold importStep at hb
  simp only at hb
  rcases List.mem_append.mp hb with h | h
  · exact Or.inl h
  · right
    rcases List.mem_map.mp h with ⟨f, hf, hjoin⟩
    exact ⟨f, (List.mem_filter.mp hf).2, hjoin.symm⟩

theorem foldl_importStep_backups (purge : Bool) (rp : String) :
    ∀ (nodes : List (String × List FsEntry)) (acc : ImportAcc),
      (∀ b ∈ acc.backups, ∃ r f, isMediaImport f = true ∧ b = ntjoinName r f) →
      ∀ b ∈ (nodes.foldl (importStep purge rp) acc).backups,
        ∃ r f, isMediaImport f = true ∧ b = ntjoinName r f := by
  intro nodes
  induction nodes with
  | nil => intro acc h; simpa using h
  | cons nd rest ih =>
    intro acc h
    apply ih
    intro b hb
    rcases importStep_backups purge rp acc nd b hb with h1 | h2
    · exact h b h1
    · exact ⟨nd.1, h2.choose, h2.choose_spec.1, h2.choose_spec.2⟩

/-! ### Claim theorems -/

/-- C3: during Phase 2, for every list of candidate paths and every
pattern of deletion failures, every folder is attempted in order, each
failure is recorded in the debug log, and the loop runs to completion —
one failed deletion never aborts the batch. -/
theorem C3_partial_failure_isolation (fails : String → Bool) (total i : Nat)
    (folders : List String) (s : PState) :
    (deleteFoldersGo fails total i folders s).attempted = folders ∧
    (deleteFoldersGo fails total i folders s).errors = folders.filter fails ∧
    (deleteFoldersGo fails total i folders s).attempted.length = folders.length := by
  refine ⟨deleteGo_attempted fails total folders i s,
          deleteGo_errors fails total folders i s, ?_⟩
  rw [deleteGo_attempted]

/-- C6: the purge-eligibility check inspects only a directory's immediate
children and holds iff there is no media-named file and no subdirectory;
a directory of only non-media files is eligible, an empty directory is
eligible, and a directory with exactly one subdirectory and no files is
not. -/
theorem C6_classification (entries : List FsEntry) :
    (is_purge_eligible entries = true ↔
      ((∀ n, FsEntry.file n ∈ entries → isMediaTry n = false) ∧
       (∀ n cs, FsEntry.dir n cs ∉ entries))) ∧
    (∀ f : List FsEntry → List FsEntry,
      is_purge_eligible (entries.map (fun e => match e with
        | FsEntry.file n => FsEntry.file n
        | FsEntry.dir n cs => FsEntry.dir n (f cs))) = is_purge_eligible entries) ∧
    ((∀ e ∈ entries, ∃ n, e = FsEntry.file n ∧ isMediaTry n = false) →
      is_purge_eligible entries = true) ∧
    (is_purge_eligible ([] : List FsEntry) = true) ∧
    (∀ n cs, is_purge_eligible [FsEntry.dir n cs] = false) := by
  refine ⟨?_, ?_, ?_, rfl, ?_⟩
  · unfold is_purge_eligible dirHasMedia dirHasSubfolders
    rw [Bool.and_eq_true, Bool.not_eq_true', Bool.not_eq_true',
        List.any_eq_false, List.any_eq_false]
    constructor
    · rintro ⟨hm, hs⟩
      constructor
      · intro n hn
        simpa using hm (FsEntry.file n) hn
      · intro n cs hn
        simpa using hs (FsEntry.dir n cs) hn
    · rintro ⟨hm, hs⟩
      constructor
      · intro e he
        cases e with
        | file n => simpa using hm n he
        | dir n cs => simp
      · intro e he
        cases e with
        | file n => simp
        | dir n cs => exact absurd he (hs n cs)
  · intro f
    unfold is_purge_eligible dirHasMedia dirHasSubfolders
    have hg1 : ((fun e => match e with
          | FsEntry.file n => isMediaTry n
          | FsEntry.dir _ _ => false) ∘
        (fun e => match e with
          | FsEntry.file n => FsEntry.file n
          | FsEntry.dir n cs => FsEntry.dir n (f cs))) =
        (fun e => match e with
          | FsEntry.file n => isMediaTry n
          | FsEntry.dir _ _ => false) := by
      funext e; cases e <;> rfl
    have hg2 : ((fun e => match e with
          | FsEntry.dir _ _ => true
          | FsEntry.file _ => false) ∘
        (fun e => match e with
          | FsEntry.file n => FsEntry.file n
          | FsEntry.dir n cs => FsEntry.dir n (f cs))) =
        (fun e => match e with
          | FsEntry.dir _ _ => true
          | FsEntry.file _ => false) := by
      funext e; cases e <;> rfl
    rw [List.any_map, List.any_map, hg1, hg2]
  · intro h
    unfold is_purge_eligible dirHasMedia dirHasSubfolders
    rw [Bool.and_eq_true, Bool.not_eq_true', Bool.not_eq_true',
        List.any_eq_false, List.any_eq_false]
    constructor
    · intro e he
      obtain ⟨n, rfl, hn⟩ := h e he
      simpa using hn
    · intro e he
      obtain ⟨n, rfl, _⟩ := h e he
      simp
  · intro n cs
    rfl

/-- Witness for C6 at concrete listings. -/
theorem C6_classification_witness :
    is_purge_eligible [FsEntry.file "notes.txt"] = true ∧
    is_purge_eligible ([] : List FsEntry) = true := by
  refine ⟨?_, (C6_classification []).2.2.2.1⟩
  refine (C6_classification [FsEntry.file "notes.txt"]).2.2.1 ?_
  intro e he
  rw [List.mem_singleton] at he
  subst he
  exact ⟨"notes.txt", rfl, by decide⟩

/-- C7: the media-extension list used by the import walker and the one
used by the purge-eligibility check are equal, so the two checks classify
every filename identically, and the classification lower-cases the
extension before comparing. -/
theorem C7_single_media_extension_set :
    media_exts_try_remove = media_exts_import ∧
    (∀ name, isMediaTry name = isMediaImport name) ∧
    isMediaTry "IMG.JPG" = true ∧ isMediaImport "img.jpg" = true :=
  ⟨rfl, fun _ => rfl, by decide, by decide⟩

/-- C9: a filename that is exactly a dot followed by a media extension
splits as having an empty extension, so both checks classify it
non-media and it does not block purge eligibility; and every backed-up
path comes from a filename the import check classifies as media. -/
theorem C9_dot_extension_names :
    (∀ e ∈ media_exts_import, pysplitextS e = (e, "") ∧ isMediaImport e = false ∧
      isMediaTry e = false ∧ is_purge_eligible [FsEntry.file e] = true) ∧
    (∀ (purge : Bool) (rp : String) (tree : List FsEntry) (b : String),
      b ∈ (importOneDrive purge rp tree).backups →
      ∃ r f, isMediaImport f = true ∧ b = ntjoinName r f) := by
  constructor
  · decide
  · intro purge rp tree b hb
    unfold importOneDrive at hb
    exact foldl_importStep_backups purge rp (walkTop rp tree) ⟨[], []⟩
      (by intro x hx; cases hx) b hb

/-- Witness for C9 at the filename `.jpg`. -/
theorem C9_dot_extension_names_witness :
    pysplitextS ".jpg" = (".jpg", "") ∧ isMediaImport ".jpg" = false ∧
    is_purge_eligible [FsEntry.file ".jpg"] = true := by
  have h := C9_dot_extension_names.1 ".jpg" (by decide)
  exact ⟨h.1, h.2.1, h.2.2.2⟩

/-- C4: for a descriptor already holding both `id` and `name`, discovery
performs no write-back, returns the descriptor unchanged with those very
values, and a second discovery run over the resulting volume behaves
identically. -/
theorem C4_idempotent_provisioning (v : Volume) (data : List (String × JValue))
    (hj : v.driveJson = some (some data)) (hid : hasKey "id" data = true)
    (hname : hasKey "name" data = true) :
    (processDrive v).2 = none ∧
    (∀ di, (processDrive v).1 = some di →
      di.json = data ∧ di.id = jgetD "id" data ∧ di.name = jgetD "name" data) ∧
    processDrive (volAfter v) = processDrive v := by
  have hb : baptize v.freshId v.freshName data = (data, false) := by
    unfold baptize
    rw [if_pos hid]
    simp [hname]
  have h2 : (processDrive v).2 = none := by
    unfold processDrive
    rw [hj]
    by_cases hsrc : isJTrue (jget "source" data) = true
    · simp [hsrc, hb]
    · simp [hsrc]
  refine ⟨h2, ?_, ?_⟩
  · intro di hdi
    unfold processDrive at hdi
    rw [hj] at hdi
    by_cases hsrc : isJTrue (jget "source" data) = true
    · simp [hsrc, hb] at hdi
      rcases hdi with rfl
      exact ⟨rfl, rfl, rfl⟩
    · simp [hsrc] at hdi
  · unfold volAfter
    rw [h2]

/-- Witness for C4 on a fully provisioned descriptor. -/
theorem C4_idempotent_provisioning_witness :
    (processDrive ⟨"E:\\", some (some [("source", JValue.bool true), ("id", JValue.str "u1"),
      ("name", JValue.str "Silver Fox")]), true, "u2", "Crimson Wolf"⟩).2 = none :=
  (C4_idempotent_provisioning
    ⟨"E:\\", some (some [("source", JValue.bool true), ("id", JValue.str "u1"),
      ("name", JValue.str "Silver Fox")]), true, "u2", "Crimson Wolf"⟩
    [("source", JValue.bool true), ("id", JValue.str "u1"), ("name", JValue.str "Silver Fox")]
    rfl rfl rfl).1

/-- C5: a parsed descriptor whose `source` field is not the boolean
`true` contributes nothing to the drive list, and every returned drive
comes from a volume whose parsed descriptor has `source` exactly `true`. -/
theorem C5_eligibility_gate :
    (∀ (v : Volume) (data : List (String × JValue)), v.driveJson = some (some data) →
      isJTrue (jget "source" data) = false → (processDrive v).1 = none) ∧
    (∀ (vols : List Volume) (di : DriveInfo), di ∈ detect_external_drives vols →
      ∃ v ∈ vols, (processDrive v).1 = some di ∧
        ∃ data, v.driveJson = some (some data) ∧ isJTrue (jget "source" data) = true) := by
  constructor
  · intro v data hj hsrc
    unfold processDrive
    rw [hj]
    simp [hsrc]
  · intro vols di hdi
    unfold detect_external_drives at hdi
    rcases List.mem_filterMap.mp hdi with ⟨v, hv, hveq⟩
    refine ⟨v, hv, hveq, ?_⟩
    cases hd : v.driveJson with
    | none => rw [processDrive, hd] at hveq; cases hveq
    | some od =>
      cases od with
      | none => rw [processDrive, hd] at hveq; cases hveq
      | some data =>
        cases hsrc : isJTrue (jget "source" data) with
        | false => rw [processDrive, hd] at hveq; simp [hsrc] at hveq
        | true => exact ⟨data, rfl, hsrc⟩

/-- Witness for C5 with a non-boolean `source` value. -/
theorem C5_eligibility_gate_witness :
    (processDrive ⟨"E:\\", some (some [("source", JValue.str "yes")]), true,
      "id0", "name0"⟩).1 = none :=
  C5_eligibility_gate.1
    ⟨"E:\\", some (some [("source", JValue.str "yes")]), true, "id0", "name0"⟩
    [("source", JValue.str "yes")] rfl rfl

/-- C8: whenever discovery writes a descriptor back, the written content
is the original mapping with only missing `id`/`name` entries appended:
every other key's value is unchanged and every original pair survives. -/
theorem C8_descriptor_frame (v : Volume) (data w : List (String × JValue))
    (hj : v.driveJson = some (some data)) (hw : (processDrive v).2 = some w) :
    (∃ extra, w = data ++ extra ∧ ∀ kv ∈ extra, kv.1 = "id" ∨ kv.1 = "name") ∧
    (∀ k, k ≠ "id" → k ≠ "name" → jget k w = jget k data) ∧
    (∀ kv ∈ data, kv ∈ w) := by
  have hw' : w = (baptize v.freshId v.freshName data).1 := by
    unfold processDrive at hw
    rw [hj] at hw
    by_cases hsrc : isJTrue (jget "source" data) = true
    · simp only [hsrc, if_true] at hw
      by_cases hup : (baptize v.freshId v.freshName data).2 = true
      · simp only [hup, if_true] at hw
        by_cases hwk : v.writeOk = true
        · simp [hwk] at hw
          exact hw.symm
        · simp [hwk] at hw
      · simp [hup] at hw
    · simp [hsrc] at hw
  have hkn : hasKey "name" (data ++ [("id", JValue.str v.freshId)]) = hasKey "name" data := by
    unfold hasKey
    rw [jget_append]
    cases jget "name" data <;> simp [jget]
  have hex : ∃ extra, (baptize v.freshId v.freshName data).1 = data ++ extra ∧
      ∀ kv ∈ extra, kv.1 = "id" ∨ kv.1 = "name" := by
    unfold baptize
    by_cases hid : hasKey "id" data = true
    · rw [if_pos hid]
      by_cases hname : hasKey "name" data = true
      · simp only [hname, if_true]
        exact ⟨[], by simp, by simp⟩
      · simp only [hname, if_false]
        refine ⟨[("name", JValue.str v.freshName)], by simp, ?_⟩
        intro kv hkv
        rw [List.mem_singleton] at hkv
        subst hkv
        exact Or.inr rfl
    · rw [if_neg hid]
      by_cases hname : hasKey "name" data = true
      · simp only [hkn, hname, if_true]
        refine ⟨[("id", JValue.str v.freshId)], rfl, ?_⟩
        intro kv hkv
        rw [List.mem_singleton] at hkv
        subst hkv
        exact Or.inl rfl
      · simp only [hkn, hname, if_false]
        refine ⟨[("id", JValue.str v.freshId), ("name", JValue.str v.freshName)],
          by rw [List.append_assoc]; rfl, ?_⟩
        intro kv hkv
        rcases List.mem_cons.mp hkv with h | h
        · subst h
          exact Or.inl rfl
        · rw [List.mem_singleton] at h
          subst h
          exact Or.inr rfl
  obtain ⟨extra, heq, hkeys⟩ := hex
  rw [hw', heq]
  refine ⟨⟨extra, rfl, hkeys⟩, ?_, ?_⟩
  · intro k hk1 hk2
    have hnone : ∀ (l : List (String × JValue)),
        (∀ kv ∈ l, kv.1 = "id" ∨ kv.1 = "name") → jget k l = none := by
      intro l
      induction l with
      | nil => intro _; rfl
      | cons kv rest ih =>
        intro hl
        obtain ⟨k', v'⟩ := kv
        rcases hl ⟨k', v'⟩ (List.mem_cons_self _ _) with h | h
        · simp only at h
          subst h
          unfold jget
          rw [if_neg (fun hh => hk1 hh.symm)]
          exact ih (fun kv2 hkv2 => hl kv2 (List.mem_cons_of_mem _ hkv2))
        · simp only at h
          subst h
          unfold jget
          rw [if_neg (fun hh => hk2 hh.symm)]
          exact ih (fun kv2 hkv2 => hl kv2 (List.mem_cons_of_mem _ hkv2))
    rw [jget_append, hnone extra hkeys]
    cases jget k data <;> rfl
  · intro kv hkv
    exact List.mem_append_left _ hkv

/-- Witness for C8: a custom field survives the write-back untouched. -/
theorem C8_descriptor_frame_witness :
    jget "custom" [("source", JValue.bool true), ("custom", JValue.str "keep"),
        ("id", JValue.str "fid"), ("name", JValue.str "Blue Goose")] =
      jget "custom" [("source", JValue.bool true), ("custom", JValue.str "keep")] :=
  (C8_descriptor_frame
    ⟨"E:\\", some (some [("source", JValue.bool true), ("custom", JValue.str "keep")]),
      true, "fid", "Blue Goose"⟩
    [("source", JValue.bool true), ("custom", JValue.str "keep")]
    [("source", JValue.bool true), ("custom", JValue.str "keep"),
      ("id", JValue.str "fid"), ("name", JValue.str "Blue Goose")]
    rfl rfl).2.1 "custom" (by decide) (by decide)

theorem confirm_some (fails : String → Bool) (s : PState) (content : String)
    (h : s.logFile = some content) :
    confirm_and_delete_folders fails s =
      (if (parseLog content).isEmpty then (⟨s, [], [], []⟩ : DelRun)
       else
        let r := deleteFoldersGo fails (parseLog content).length 1 (parseLog content) s
        ⟨r.state, r.attempted, r.errors,
          OutMsg.deletingCount (parseLog content).length :: r.output ++ [OutMsg.completed]⟩) := by
  unfold confirm_and_delete_folders
  rw [h]

/-- C1: when the candidate list is non-empty, the deletion log is written
in full (one candidate per line, in order) before any deletion; Phase 2's
work list is exactly the parse of that log; and after any number of
Phase 2 deletions — crash at any point included — the log on disk still
holds the complete candidate list of Phase 1. -/
theorem C1_checkpoint_before_delete (fails : String → Bool) (cands : List String)
    (s : PState) (hne : cands ≠ []) (hclean : ∀ c ∈ cands, CleanPath c)
    (hlog : ∀ c ∈ cands, pathUnder s.logPath c = false) :
    parseLog (renderLog cands) = cands ∧
    (∀ k, (finalizeCrash fails cands s k).logFile = some (renderLog cands)) ∧
    (finalize_purge_log_and_delete fails cands s).attempted = cands ∧
    (finalize_purge_log_and_delete fails cands s).state.logFile = some (renderLog cands) := by
  have hpr := parse_render cands hclean
  have hemp : cands.isEmpty = false := by
    cases cands with
    | nil => exact absurd rfl hne
    | cons a l => rfl
  have hnemp : ¬ (cands.isEmpty = true) := by simp [hemp]
  have hw : (write_folders_to_delete_log cands s).logFile = some (renderLog cands) := rfl
  have hc := confirm_some fails (write_folders_to_delete_log cands s) (renderLog cands) hw
  refine ⟨hpr, ?_, ?_, ?_⟩
  · intro k
    unfold finalizeCrash
    rw [if_neg hnemp]
    show (deleteFoldersGo fails (parseLog (renderLog cands)).length 1
        ((parseLog (renderLog cands)).take k)
        (write_folders_to_delete_log cands s)).state.logFile = some (renderLog cands)
    rw [hpr]
    have hsub : ∀ f ∈ cands.take k,
        pathUnder (write_folders_to_delete_log cands s).logPath f = false := by
      intro f hf
      exact hlog f (List.take_subset k cands hf)
    exact (deleteGo_state fails cands.length (cands.take k) 1
      (write_folders_to_delete_log cands s) hsub).2
  · unfold finalize_purge_log_and_delete
    rw [if_neg hnemp, hc, hpr, if_neg hnemp]
    show (deleteFoldersGo fails cands.length 1 cands
      (write_folders_to_delete_log cands s)).attempted = cands
    exact deleteGo_attempted fails cands.length cands 1 _
  · unfold finalize_purge_log_and_delete
    rw [if_neg hnemp, hc, hpr, if_neg hnemp]
    show (deleteFoldersGo fails cands.length 1 cands
      (write_folders_to_delete_log cands s)).state.logFile = some (renderLog cands)
    have hsub : ∀ f ∈ cands,
        pathUnder (write_folders_to_delete_log cands s).logPath f = false := hlog
    exact (deleteGo_state fails cands.length cands 1
      (write_folders_to_delete_log cands s) hsub).2

/-- Witness for C1 on a one-candidate run. -/
theorem C1_checkpoint_before_delete_witness :
    parseLog (renderLog ["E:\\A\\B"]) = ["E:\\A\\B"] ∧
    (finalizeCrash (fun _ => false) ["E:\\A\\B"]
      ⟨"C:\\tri\\logs\\folders_to_delete.log", none, ["E:\\A\\B"]⟩ 0).logFile =
      some (renderLog ["E:\\A\\B"]) ∧
    (finalize_purge_log_and_delete (fun _ => false) ["E:\\A\\B"]
      ⟨"C:\\tri\\logs\\folders_to_delete.log", none, ["E:\\A\\B"]⟩).attempted =
      ["E:\\A\\B"] := by
  have h := C1_checkpoint_before_delete (fun _ => false) ["E:\\A\\B"]
    ⟨"C:\\tri\\logs\\folders_to_delete.log", none, ["E:\\A\\B"]⟩
    (by decide) (by decide) (by decide)
  exact ⟨h.1, h.2.1 0, h.2.2.1⟩

/-- C2 (counterexample): the walker's root-equality test compares
`os.path.normpath` results, and `normpath` preserves letter case: two
spellings differing only in case normalize to different strings, so the
comparison is not insensitive to case differences. -/
theorem C2_root_exemption_counterexample :
    pyLowerS "e:\\photos" = pyLowerS "E:\\Photos" ∧
    pynormpath "e:\\photos" ≠ pynormpath "E:\\Photos" :=
  ⟨by decide, by decide⟩

/-- C2 (amended): the mount-root path is never added to the purge
candidate list — every marked path has a normalized form different from
the normalized mount root — and the normalization is insensitive to
trailing separators and separator style (though case-sensitive). -/
theorem C2_root_exemption_amended (d : DriveInfo) (tree : List FsEntry) :
    (∀ r ∈ (importDrive d tree).marked, pynormpath r ≠ pynormpath d.path) ∧
    d.path ∉ (importDrive d tree).marked ∧
    pynormpath "E:\\DCIM\\" = pynormpath "E:\\DCIM" ∧
    pynormpath "E:/DCIM" = pynormpath "E:\\DCIM" := by
  have hmain : ∀ r ∈ (importDrive d tree).marked, pynormpath r ≠ pynormpath d.path := by
    unfold importDrive importOneDrive
    exact foldl_importStep_marked (getPurge d.json) d.path (walkTop d.path tree) ⟨[], []⟩
      (by intro r hr; cases hr)
  refine ⟨hmain, ?_, by decide, by decide⟩
  intro hmem
  exact hmain d.path hmem rfl

/-- Witness for C2 on a purge-enabled drive with one empty directory:
the directory is marked, the root is not. -/
theorem C2_root_exemption_witness :
    pynormpath "E:\\EMPTY" ≠ pynormpath "E:\\" ∧
    "E:\\" ∉ (importDrive
      ⟨"E:\\", JValue.str "i", JValue.str "n",
        [("source", JValue.bool true), ("purge", JValue.bool true)]⟩
      [FsEntry.dir "EMPTY" []]).marked := by
  constructor
  · exact (C2_root_exemption_amended
      ⟨"E:\\", JValue.str "i", JValue.str "n",
        [("source", JValue.bool true), ("purge", JValue.bool true)]⟩
      [FsEntry.dir "EMPTY" []]).1 "E:\\EMPTY" (by decide)
  · exact (C2_root_exemption_amended
      ⟨"E:\\", JValue.str "i", JValue.str "n",
        [("source", JValue.bool true), ("purge", JValue.bool true)]⟩
      [FsEntry.dir "EMPTY" []]).2.1

/-- C10: Phase 2 strips every log line and skips blank ones; an absent
log file, or one whose lines all strip to nothing, makes the deletion
step return with no deletion attempted and no output emitted; otherwise
the attempted list is exactly the parsed log. -/
theorem C10_log_reading (fails : String → Bool) (s : PState) :
    (s.logFile = none → confirm_and_delete_folders fails s = ⟨s, [], [], []⟩) ∧
    (∀ content, s.logFile = some content →
      (∀ line ∈ splitOnC '\n' content.data, stripL line = []) →
      confirm_and_delete_folders fails s = ⟨s, [], [], []⟩) ∧
    (∀ content, s.logFile = some content →
      (confirm_and_delete_folders fails s).attempted = parseLog content) ∧
    (∀ content l, l ∈ parseLog content →
      l ≠ "" ∧ ∃ line ∈ splitOnC '\n' content.data, l = (⟨stripL line⟩ : String)) := by
  refine ⟨?_, ?_, ?_, ?_⟩
  · intro h
    unfold confirm_and_delete_folders
    rw [h]
  · intro content h hblank
    have hp : parseLog content = [] := by
      unfold parseLog
      rw [List.filter_eq_nil_iff]
      intro a ha
      rcases List.mem_map.mp ha with ⟨line, hline, rfl⟩
      simp [hblank line hline]
    rw [confirm_some fails s content h, hp]
    rfl
  · intro content h
    rw [confirm_some fails s content h]
    by_cases hp : (parseLog content).isEmpty = true
    · have hnil : parseLog content = [] := by
        rwa [List.isEmpty_iff] at hp
      simp [hp, hnil]
    · simp only [hp, if_false]
      exact deleteGo_attempted fails (parseLog content).length (parseLog content) 1 s
  · intro content l hl
    unfold parseLog at hl
    have hf := List.mem_filter.mp hl
    refine ⟨of_decide_eq_true hf.2, ?_⟩
    rcases List.mem_map.mp hf.1 with ⟨line, hline, hback⟩
    exact ⟨line, hline, hback.symm⟩

/-- Witness for C10: absent log file and blank-only log file. -/
theorem C10_log_reading_witness :
    confirm_and_delete_folders (fun _ => false) ⟨"C:\\logs\\d.log", none, []⟩ =
      ⟨⟨"C:\\logs\\d.log", none, []⟩, [], [], []⟩ ∧
    confirm_and_delete_folders (fun _ => false) ⟨"C:\\logs\\d.log", some "  \n \n", []⟩ =
      ⟨⟨"C:\\logs\\d.log", some "  \n \n", []⟩, [], [], []⟩ := by
  constructor
  · exact (C10_log_reading (fun _ => false) ⟨"C:\\logs\\d.log", none, []⟩).1 rfl
  · exact (C10_log_reading (fun _ => false) ⟨"C:\\logs\\d.log", some "  \n \n", []⟩).2.1
      "  \n \n" rfl (by decide)
